import Mathlib

/-!
Verification of the makefile generator `build.py` of the lemon repository.

The program is embedded shallowly: Python strings become `List Char`, the
`gcc -MM` subprocess becomes an oracle `Str → Option Str` (`none` models a
nonzero exit status, which `run(..., check=True)` turns into an exception),
and Python exceptions become `Except BuildError`.  Every definition follows
the corresponding function of `src/build.py` line by line.
-/

namespace Lemon

/-- Python strings are modelled as lists of characters. -/
abbrev Str := List Char

/-- The whitespace test used by Python's `str.split()` with no arguments:
space, tab, newline, carriage return, vertical tab and form feed. -/
def pySpace (c : Char) : Bool :=
  c = ' ' || c = '\t' || c = '\n' || c = '\r' || c = '\x0b' || c = '\x0c'

/-- Emit the pending word accumulator (held reversed) as zero or one words. -/
def flush (acc : Str) : List Str :=
  if acc = [] then [] else [acc.reverse]

/-- Worker for `words`: scans the character list, accumulating the current
word in reverse. -/
def wordsAux : Str → Str → List Str
  | [], acc => flush acc
  | c :: cs, acc =>
      if pySpace c then flush acc ++ wordsAux cs [] else wordsAux cs (c :: acc)

/-- Python's `str.split()` with no arguments: split on runs of whitespace,
discarding empty pieces.  Used by `get_linker_prerequisites`. -/
def words (s : Str) : List Str := wordsAux s []

/-- Python's `' '.join(...)` on a list of strings. -/
def joinSpace : List Str → Str
  | [] => []
  | [w] => w
  | w :: v :: rest => w ++ ' ' :: joinSpace (v :: rest)

/-- Python's `word[-3:]`: the last three characters (the whole word when it
is shorter than three characters). -/
def tail3 (w : Str) : Str := w.drop (w.length - 3)

/-! ## Configuration tables (lines 13-36 of `build.py`) -/

/-- Line 13: `executable_name = "lemon"`. -/
def executable_name : Str := "lemon".toList

/-- Line 14: `debug_dir = "./debug/"`. -/
def debug_dir : Str := "./debug/".toList

/-- Line 15: `release_dir = "./release/"`. -/
def release_dir : Str := "./release/".toList

/-- Lines 19-30: the configured source-file list. -/
def files : List Str :=
  ["./src/main.c".toList, "./src/xerror.c".toList, "./src/options.c".toList,
   "./src/file.c".toList, "./src/jobs.c".toList, "./src/scanner.c".toList,
   "./src/parser.c".toList, "./src/symtab.c".toList,
   "./src/assets/kmap.c".toList, "./extern/cexception/CException.c".toList]

/-- Lines 34-36: the configured library list. -/
def libraries : List Str := ["pthread".toList]

/-! ## Fixed text blocks (lines 45-100 of `build.py`), with the `{}`
placeholders already substituted exactly as `str.format` does. -/

/-- Lines 45-59: the preamble block. -/
def preamble : Str :=
  ("CC = gcc\n\nCFLAGS = -std=gnu17 -Wall -Wextra -Werror -Wpedantic\nCFLAGS += -Wconversion -Wcast-qual -Wnull-dereference\nCFLAGS += -Wdouble-promotion\n\n# enable coloured error output from ./src/xerror.c\nCFLAGS += -DCOLOURS\n\n#allows for templated data structures in ./src/lib\nCFLAGS += -Wno-unused-function\n\n.PHONY: all\n\n").toList

/-- Lines 66-77: the debug profile header, with `{0}` replaced by
`./debug/`. -/
def debug_build : Str :=
  (".PHONY: debug debug_deps\n\ndebug: CFLAGS += -ggdb -O0 -DDEBUG\ndebug: debug_deps ./debug/lemon\n\t@echo \"\\nBuild finished successfully.\"\n\t@echo \"Lemon was compiled in debug mode.\"\n\t@echo \"Issue \x27make release\x27 to turn on optimisations.\"\n\ndebug_deps:\n\t@mkdir -p ./debug/\n\n").toList

/-- Lines 79-89: the release profile header, with `{0}` replaced by
`./release/`. -/
def release_build : Str :=
  (".PHONY: release release_deps\n\nrelease: CFLAGS += -O3 -march=native\nrelease: release_deps ./release/lemon\n\t@echo \"\\nBuild finished successfully.\"\n\t@echo \"Lemon was compiled in release mode.\"\n\nrelease_deps:\n\t@mkdir -p ./release/\n\n").toList

/-- Lines 94-100: the cleanup rule. -/
def clean : Str :=
  (".PHONY: clean\n\nclean:\n\t@rm -rf ./debug/ ./release/\n\t@echo \"directories cleaned\"\n").toList

/-! ## Rule synthesis (lines 132-209 of `build.py`) -/

/-- The two ways a generation run can raise: the dependency-scan subprocess
exits non-zero (`CalledProcessError` from `run(..., check=True)`, line 155),
or the scanner output has no colon (`AssertionError`, line 167). -/
inductive BuildError
  | scanFailure : Str → BuildError
  | malformedDep : Str → BuildError

/-- Python's `rule.find(':')` (line 166), as an optional index of the first
colon rather than the `-1` sentinel. -/
def find_colon : Str → Option Nat
  | [] => none
  | c :: cs => if c = ':' then some 0 else (find_colon cs).map (· + 1)

/-- Lines 165-169: inject the source file as the first prerequisite of a
`gcc -MM` generated rule.  `none` models the `assert(colon != 0)` failure
when the rule has no colon. -/
def insert_source (rule file : Str) : Option Str :=
  (find_colon rule).map fun i =>
    rule.take (i + 1) ++ ' ' :: (file ++ ' ' :: rule.drop (i + 1))

/-- The fixed compilation recipe of line 159. -/
def object_recipe : Str := ("\n\t$(CC) $(CFLAGS) -c -o $@ $<\n\n").toList

/-- Lines 152-161: create a makefile rule for one C source file.  `dep`
is the `gcc -MM` oracle: `dep file` is the decoded standard output, or
`none` when the subprocess exits non-zero. -/
def create_object_rule (dep : Str → Option Str) (directory file : Str) :
    Except BuildError Str :=
  match dep file with
  | none => Except.error (BuildError.scanFailure file)
  | some out =>
      match insert_source out file with
      | none => Except.error (BuildError.malformedDep file)
      | some prerequisites => Except.ok (directory ++ prerequisites ++ object_recipe)

/-- The loop body of lines 190-196: a whitespace token whose last three
characters are `.o:` contributes itself without its final colon. -/
def toObject (w : Str) : Option Str :=
  if tail3 w = ".o:".toList then some (w.take (w.length - 1)) else none

/-- Lines 185-198, the scanning loop: every whitespace token of the script
whose last three characters are `.o:` contributes that token without its
final colon. -/
def scan_objects (script : Str) : List Str :=
  (words script).filterMap toObject

/-- Lines 185-198: the space-joined object-file paths found in the input
script. -/
def get_linker_prerequisites (script : Str) : Str := joinSpace (scan_objects script)

/-- Lines 201-209, the loop body: each library name becomes `-l<name>`. -/
def lib_flags : List Str → List Str
  | [] => []
  | lib :: rest => ('-' :: 'l' :: lib) :: lib_flags rest

/-- Lines 201-209: transform the library names into linker flags, space
joined. -/
def get_libraries (libs : List Str) : Str := joinSpace (lib_flags libs)

/-- The linker recipe of line 179, with `{}` replaced by the library
flags. -/
def exe_recipe (libs : List Str) : Str :=
  ("\n\t$(CC) -o $@ $^ ").toList ++ get_libraries libs ++ ("\n\n").toList

/-- Lines 174-181: create the link rule.  The input script must already
hold the object rules; its scanned object paths become the prerequisites. -/
def create_exe_rule (libs : List Str) (directory script : Str) : Str :=
  (directory ++ executable_name ++ (": ").toList) ++
    get_linker_prerequisites script ++ exe_recipe libs

/-- Lines 136-141: the profile header chosen by `build`.  For a directory
that is neither profile directory, the source constructs
`ValueError("invalid target directory: ...")` but never raises it, so the
script simply receives no header block. -/
def header (directory : Str) : Str :=
  if directory = debug_dir then debug_build
  else if directory = release_dir then release_build
  else []

/-- Lines 143-144, the accumulation loop of `build`: append the object rule
of each file in order, propagating the first failure. -/
def object_loop (dep : Str → Option Str) (directory : Str) :
    List Str → Str → Except BuildError Str
  | [], script => Except.ok script
  | f :: fs, script =>
      match create_object_rule dep directory f with
      | Except.error e => Except.error e
      | Except.ok rule => object_loop dep directory fs (script ++ rule)

/-- Lines 132-148: build one profile's block: header, then one object rule
per configured file, then the link rule computed from the accumulated
script. -/
def build (dep : Str → Option Str) (fs libs : List Str) (directory : Str) :
    Except BuildError Str :=
  match object_loop dep directory fs (header directory) with
  | Except.error e => Except.error e
  | Except.ok script => Except.ok (script ++ create_exe_rule libs directory script)

/-- Lines 216-222: the whole makefile: preamble, debug block, release
block, cleanup rule. -/
def create_makefile (dep : Str → Option Str) (fs libs : List Str) :
    Except BuildError Str :=
  match build dep fs libs debug_dir with
  | Except.error e => Except.error e
  | Except.ok d =>
      match build dep fs libs release_dir with
      | Except.error e => Except.error e
      | Except.ok r => Except.ok (preamble ++ d ++ r ++ clean)

/-- Lines 224-227: the text actually printed by the program: the makefile
on success, nothing at all when any step raised. -/
def emitted_script (dep : Str → Option Str) (fs libs : List Str) : Option Str :=
  match create_makefile dep fs libs with
  | Except.ok m => some m
  | Except.error _ => none

/-! ## Derived notions used to state the claims -/

/-- The part of a rule's text before its first colon: the rule's target. -/
def targetOf (rule : Str) : Str := rule.takeWhile (fun c => c != ':')

/-- Everything after the first colon of a rule's text. -/
def afterFirstColon (s : Str) : Str := (s.dropWhile (fun c => c != ':')).drop 1

/-- The text of a line up to its first newline. -/
def firstLine (s : Str) : Str := s.takeWhile (fun c => c != '\n')

/-- The prerequisite tokens of a one-line rule: the whitespace tokens
between the first colon and the first newline after it. -/
def prereqTokens (rule : Str) : List Str := words (firstLine (afterFirstColon rule))

/-! ## Toolkit: tokenization lemmas for `words` -/

theorem flush_nil : flush [] = [] := rfl

theorem wordsAux_nil (acc : Str) : wordsAux [] acc = flush acc := rfl

theorem wordsAux_cons_space {c : Char} (hc : pySpace c = true) (cs acc : Str) :
    wordsAux (c :: cs) acc = flush acc ++ wordsAux cs [] := by
  simp [wordsAux, hc]

theorem wordsAux_cons_nonspace {c : Char} (hc : pySpace c = false) (cs acc : Str) :
    wordsAux (c :: cs) acc = wordsAux cs (c :: acc) := by
  simp [wordsAux, hc]

theorem wordsAux_append_space {c : Char} (hc : pySpace c = true) (b : Str) :
    ∀ (a acc : Str), wordsAux (a ++ c :: b) acc = wordsAux a acc ++ wordsAux (c :: b) [] := by
  intro a
  induction a with
  | nil =>
      intro acc
      rw [List.nil_append, wordsAux_nil, wordsAux_cons_space hc,
        wordsAux_cons_space hc, flush_nil, List.nil_append]
  | cons x xs ih =>
      intro acc
      by_cases hx : pySpace x = true
      · rw [List.cons_append, wordsAux_cons_space hx, wordsAux_cons_space hx, ih,
          List.append_assoc]
      · rw [List.cons_append,
          wordsAux_cons_nonspace (Bool.not_eq_true _ ▸ hx),
          wordsAux_cons_nonspace (Bool.not_eq_true _ ▸ hx), ih]

theorem words_cons_space {c : Char} (hc : pySpace c = true) (s : Str) :
    words (c :: s) = words s := by
  rw [words, wordsAux_cons_space hc, flush_nil, List.nil_append, words]

theorem words_append_space {c : Char} (hc : pySpace c = true) (a b : Str) :
    words (a ++ c :: b) = words a ++ words b := by
  rw [words, wordsAux_append_space hc b a [], ← words, ← words, words_cons_space hc]

theorem wordsAux_no_space :
    ∀ (w : Str), (∀ x ∈ w, pySpace x = false) → ∀ acc,
      wordsAux w acc = flush (w.reverse ++ acc) := by
  intro w
  induction w with
  | nil => intro _ acc; rw [wordsAux_nil, List.reverse_nil, List.nil_append]
  | cons x xs ih =>
      intro hw acc
      rw [wordsAux_cons_nonspace (hw x (List.mem_cons_self x xs)),
        ih (fun y hy => hw y (List.mem_cons_of_mem x hy)) (x :: acc)]
      rw [List.reverse_cons, List.append_assoc, List.singleton_append]

theorem words_singleton {w : Str} (hw : ∀ x ∈ w, pySpace x = false) (hne : w ≠ []) :
    words w = [w] := by
  rw [words, wordsAux_no_space w hw [], List.append_nil, flush]
  simp [hne]

theorem words_word_append {w : Str} (hw : ∀ x ∈ w, pySpace x = false) (hne : w ≠ [])
    {c : Char} (hc : pySpace c = true) (b : Str) :
    words (w ++ c :: b) = w :: words b := by
  rw [words_append_space hc, words_singleton hw hne, List.singleton_append]

theorem mem_flush {w acc : Str} (h : w ∈ flush acc) : w = acc.reverse := by
  by_cases ha : acc = []
  · simp [flush, ha] at h
  · simp [flush, ha] at h; exact h

theorem mem_of_mem_wordsAux {x : Char} :
    ∀ (s acc w : Str), w ∈ wordsAux s acc → x ∈ w → x ∈ s ∨ x ∈ acc := by
  intro s
  induction s with
  | nil =>
      intro acc w hw hx
      rw [wordsAux_nil] at hw
      right
      rw [mem_flush hw] at hx
      exact List.mem_reverse.mp hx
  | cons c cs ih =>
      intro acc w hw hx
      by_cases hc : pySpace c = true
      · rw [wordsAux_cons_space hc] at hw
        rcases List.mem_append.mp hw with h | h
        · right; rw [mem_flush h] at hx; exact List.mem_reverse.mp hx
        · rcases ih [] w h hx with h2 | h2
          · exact Or.inl (List.mem_cons_of_mem c h2)
          · exact absurd h2 (List.not_mem_nil x)
      · rw [wordsAux_cons_nonspace (Bool.not_eq_true _ ▸ hc)] at hw
        rcases ih (c :: acc) w hw hx with h2 | h2
        · exact Or.inl (List.mem_cons_of_mem c h2)
        · rcases List.mem_cons.mp h2 with h3 | h3
          · exact Or.inl (h3 ▸ List.mem_cons_self c cs)
          · exact Or.inr h3

theorem mem_of_mem_words {s w : Str} (hw : w ∈ words s) {x : Char} (hx : x ∈ w) :
    x ∈ s := by
  rcases mem_of_mem_wordsAux s [] w hw hx with h | h
  · exact h
  · exact absurd h (List.not_mem_nil x)

/-! ## Toolkit: takeWhile / dropWhile over appends -/

theorem takeWhile_append_all {p : Char → Bool} :
    ∀ {u : Str}, (∀ x ∈ u, p x = true) → ∀ v,
      List.takeWhile p (u ++ v) = u ++ List.takeWhile p v := by
  intro u
  induction u with
  | nil => intro _ v; rw [List.nil_append, List.nil_append]
  | cons x xs ih =>
      intro hu v
      rw [List.cons_append, List.takeWhile_cons, hu x (List.mem_cons_self x xs)]
      rw [ih (fun y hy => hu y (List.mem_cons_of_mem x hy)) v]
      simp

theorem takeWhile_cons_neg {p : Char → Bool} {c : Char} (hc : p c = false) (v : Str) :
    List.takeWhile p (c :: v) = [] := by
  simp [List.takeWhile_cons, hc]

theorem dropWhile_append_all {p : Char → Bool} :
    ∀ {u : Str}, (∀ x ∈ u, p x = true) → ∀ v,
      List.dropWhile p (u ++ v) = List.dropWhile p v := by
  intro u
  induction u with
  | nil => intro _ v; rw [List.nil_append]
  | cons x xs ih =>
      intro hu v
      rw [List.cons_append, List.dropWhile_cons, hu x (List.mem_cons_self x xs)]
      exact ih (fun y hy => hu y (List.mem_cons_of_mem x hy)) v

theorem dropWhile_cons_neg {p : Char → Bool} {c : Char} (hc : p c = false) (v : Str) :
    List.dropWhile p (c :: v) = c :: v := by
  simp [List.dropWhile_cons, hc]

/-! ## Toolkit: the first colon and `insert_source` -/

theorem find_colon_eq_none : ∀ {s : Str}, find_colon s = none ↔ ':' ∉ s := by
  intro s
  induction s with
  | nil => simp [find_colon]
  | cons c cs ih =>
      by_cases hc : c = ':'
      · subst hc; simp [find_colon]
      · simp [find_colon, hc, ih]
        exact fun _ h => hc h.symm

theorem exists_first_colon : ∀ {s : Str}, ':' ∈ s → ∃ a b, s = a ++ ':' :: b ∧ ':' ∉ a := by
  intro s
  induction s with
  | nil => intro h; exact absurd h (List.not_mem_nil ':')
  | cons c cs ih =>
      intro h
      by_cases hc : c = ':'
      · subst hc
        exact ⟨[], cs, rfl, List.not_mem_nil ':'⟩
      · rcases ih (List.mem_of_ne_of_mem (fun he => hc he.symm) h) with ⟨a, b, hab, ha⟩
        refine ⟨c :: a, b, by rw [hab, List.cons_append], ?_⟩
        intro hmem
        rcases List.mem_cons.mp hmem with h2 | h2
        · exact hc h2.symm
        · exact ha h2

theorem find_colon_append_cons {a : Str} (ha : ':' ∉ a) (b : Str) :
    find_colon (a ++ ':' :: b) = some a.length := by
  induction a with
  | nil => simp [find_colon]
  | cons x xs ih =>
      have hx : ¬ x = ':' := fun h => ha (h ▸ List.mem_cons_self x xs)
      rw [List.cons_append]
      simp only [find_colon, hx, if_false]
      rw [ih (fun h => ha (List.mem_cons_of_mem x h))]
      simp

theorem take_append_cons_length {a : Str} (c : Char) (b : Str) :
    List.take (a.length + 1) (a ++ c :: b) = a ++ [c] := by
  induction a with
  | nil => simp
  | cons x xs ih => simp [List.take_succ_cons, ih]

theorem drop_append_cons_length {a : Str} (c : Char) (b : Str) :
    List.drop (a.length + 1) (a ++ c :: b) = b := by
  induction a with
  | nil => simp
  | cons x xs ih => simp [ih]

/-- Helper: the exact text surgery done by `insert_source` on a rule whose
first colon separates `a` from `b`. -/
theorem insert_source_spec {a : Str} (ha : ':' ∉ a) (b file : Str) :
    insert_source (a ++ ':' :: b) file =
      some ((a ++ [':']) ++ ' ' :: (file ++ ' ' :: b)) := by
  rw [insert_source, find_colon_append_cons ha b, Option.map_some']
  rw [take_append_cons_length, drop_append_cons_length]

/-! ## Toolkit: the object scanner `toObject` -/

theorem toObject_of_no_colon {w : Str} (hw : ':' ∉ w) : toObject w = none := by
  have h : ¬ tail3 w = ['.', 'o', ':'] := by
    intro h
    have hmem : ':' ∈ tail3 w := by rw [h]; decide
    exact hw (List.drop_subset _ w hmem)
  simp [toObject, h]

theorem toObject_obj (y : Str) : toObject (y ++ ['.', 'o', ':']) = some (y ++ ['.', 'o']) := by
  have hcond : tail3 (y ++ ['.', 'o', ':']) = ".o:".toList := by
    rw [tail3]
    have hlen : (y ++ ['.', 'o', ':']).length - 3 = y.length := by simp
    rw [hlen, List.drop_left]
    rfl
  rw [toObject, if_pos hcond]
  have hlen2 : (y ++ ['.', 'o', ':']).length - 1 = y.length + 2 := by simp
  rw [hlen2]
  have ht : List.take (y.length + 2) (y ++ ['.', 'o', ':']) = y ++ ['.', 'o'] := by
    rw [List.take_append_eq_append_take, List.take_of_length_le (by omega)]
    simp
  rw [ht]

/-! ## Toolkit: the shape of one generated object rule -/

/-- The whitespace tokens of the fixed compilation recipe. -/
def recipe_tokens : List Str :=
  ["$(CC)".toList, "$(CFLAGS)".toList, "-c".toList, "-o".toList, "$@".toList, "$<".toList]

/-- The text produced by `create_object_rule` when the scanner output for
`f` splits as `t f` before its first colon and `r f` after it. -/
def ruleText (directory : Str) (t r : Str → Str) (f : Str) : Str :=
  directory ++ ((t f ++ [':']) ++ ' ' :: (f ++ ' ' :: r f)) ++ object_recipe

/-- The whitespace tokens contributed by one object rule. -/
def ruleTokens (directory : Str) (t r : Str → Str) (f : Str) : List Str :=
  (directory ++ t f ++ [':']) :: f :: (words (r f) ++ recipe_tokens)

theorem pySpace_space : pySpace ' ' = true := by decide

theorem pySpace_newline : pySpace '\n' = true := by decide

theorem words_object_recipe_append (rest : Str) :
    words (object_recipe ++ rest) = recipe_tokens ++ words rest := by
  have h1 : object_recipe ++ rest
      = ("\n\t$(CC) $(CFLAGS) -c -o $@ $<\n").toList ++ '\n' :: rest := rfl
  rw [h1]
  rw [words_append_space pySpace_newline]
  have h2 : words (("\n\t$(CC) $(CFLAGS) -c -o $@ $<\n").toList) = recipe_tokens := by decide
  rw [h2]

theorem create_object_rule_eq (dep : Str → Option Str) (directory : Str) (t r : Str → Str)
    (f : Str) (hdep : dep f = some (t f ++ ':' :: r f)) (ht : ':' ∉ t f) :
    create_object_rule dep directory f = Except.ok (ruleText directory t r f) := by
  simp only [create_object_rule, hdep, insert_source_spec ht]
  rfl

theorem words_ruleText_append (directory : Str) (t r : Str → Str) (f : Str)
    (hdir : ∀ x ∈ directory, pySpace x = false)
    (hts : ∀ x ∈ t f, pySpace x = false)
    (hfs : ∀ x ∈ f, pySpace x = false) (hfne : f ≠ []) (rest : Str) :
    words (ruleText directory t r f ++ rest) = ruleTokens directory t r f ++ words rest := by
  have hw1 : ∀ x ∈ directory ++ t f ++ [':'], pySpace x = false := by
    intro x hx
    rcases List.mem_append.mp hx with h | h
    · rcases List.mem_append.mp h with h2 | h2
      · exact hdir x h2
      · exact hts x h2
    · have hx2 : x = ':' := List.mem_singleton.mp h
      subst hx2; decide
  have hne1 : directory ++ t f ++ [':'] ≠ [] := by simp
  have e1 : ruleText directory t r f ++ rest
      = (directory ++ t f ++ [':']) ++ ' ' :: (f ++ ' ' :: (r f ++ (object_recipe ++ rest))) := by
    simp [ruleText, List.append_assoc]
  rw [e1, words_word_append hw1 hne1 pySpace_space, words_word_append hfs hfne pySpace_space]
  have e2 : r f ++ (object_recipe ++ rest)
      = r f ++ '\n' :: (("\t$(CC) $(CFLAGS) -c -o $@ $<\n").toList ++ '\n' :: rest) := rfl
  rw [e2, words_append_space pySpace_newline, words_append_space pySpace_newline]
  have h2 : words (("\t$(CC) $(CFLAGS) -c -o $@ $<\n").toList) = recipe_tokens := by decide
  rw [h2, ruleTokens]
  simp [List.append_assoc]

theorem filterMap_ruleTokens (directory : Str) (t r : Str → Str) (f : Str)
    (ht2 : (t f).drop ((t f).length - 2) = ['.', 'o'])
    (hfc : ':' ∉ f) (hrc : ':' ∉ r f) :
    (ruleTokens directory t r f).filterMap toObject = [directory ++ t f] := by
  have hdecomp : t f = (t f).take ((t f).length - 2) ++ ['.', 'o'] := by
    conv_lhs => rw [← List.take_append_drop ((t f).length - 2) (t f)]
    rw [ht2]
  obtain ⟨y, hy⟩ : ∃ y, t f = y ++ ['.', 'o'] := ⟨(t f).take ((t f).length - 2), hdecomp⟩
  have h1 : toObject (directory ++ t f ++ [':']) = some (directory ++ t f) := by
    rw [hy]
    have e : directory ++ (y ++ ['.', 'o']) ++ [':'] = (directory ++ y) ++ ['.', 'o', ':'] := by
      simp [List.append_assoc]
    rw [e, toObject_obj, List.append_assoc]
  have h2 : toObject f = none := toObject_of_no_colon hfc
  have h3 : (words (r f)).filterMap toObject = [] := by
    rw [List.filterMap_eq_nil]
    intro w hw
    exact toObject_of_no_colon (fun hc => hrc (mem_of_mem_words hw hc))
  have h4 : recipe_tokens.filterMap toObject = [] := by decide
  have h1a : toObject (directory ++ (t f ++ [':'])) = some (directory ++ t f) := by
    rw [← List.append_assoc]; exact h1
  simp [ruleTokens, List.filterMap_cons, h1, h1a, h2, List.filterMap_append, h3, h4]

/-! ## Toolkit: the accumulation loop of `build` -/

theorem object_loop_ok (dep : Str → Option Str) (directory : Str) (rt : Str → Str) :
    ∀ (fs : List Str) (acc : Str),
      (∀ f ∈ fs, create_object_rule dep directory f = Except.ok (rt f)) →
      object_loop dep directory fs acc = Except.ok (acc ++ (fs.map rt).flatten) := by
  intro fs
  induction fs with
  | nil => intro acc _; simp [object_loop]
  | cons f fs ih =>
      intro acc h
      simp only [object_loop, h f (List.mem_cons_self f fs)]
      rw [ih (acc ++ rt f) (fun g hg => h g (List.mem_cons_of_mem f hg))]
      simp [List.append_assoc]

theorem words_join_rules (directory : Str) (t r : Str → Str)
    (hdir : ∀ x ∈ directory, pySpace x = false) :
    ∀ (fs : List Str),
      (∀ f ∈ fs, (f ≠ [] ∧ ∀ x ∈ f, pySpace x = false) ∧ ∀ x ∈ t f, pySpace x = false) →
      ∀ rest, words ((fs.map (ruleText directory t r)).flatten ++ rest)
        = (fs.map (ruleTokens directory t r)).join ++ words rest := by
  intro fs
  induction fs with
  | nil => intro _ rest; simp
  | cons f fs ih =>
      intro h rest
      have hf := h f (List.mem_cons_self f fs)
      simp only [List.map_cons, List.flatten_cons, List.append_assoc]
      rw [words_ruleText_append directory t r f hdir hf.2 hf.1.2 hf.1.1,
        ih (fun g hg => h g (List.mem_cons_of_mem f hg)) rest]

theorem filterMap_join_ruleTokens (directory : Str) (t r : Str → Str) :
    ∀ (fs : List Str),
      (∀ f ∈ fs, (t f).drop ((t f).length - 2) = ['.', 'o'] ∧ ':' ∉ f ∧ ':' ∉ r f) →
      ((fs.map (ruleTokens directory t r)).flatten).filterMap toObject
        = fs.map (fun f => directory ++ t f) := by
  intro fs
  induction fs with
  | nil => intro _; simp
  | cons f fs ih =>
      intro h
      have hf := h f (List.mem_cons_self f fs)
      simp only [List.map_cons, List.flatten_cons, List.filterMap_append]
      rw [filterMap_ruleTokens directory t r f hf.1 hf.2.1 hf.2.2,
        ih (fun g hg => h g (List.mem_cons_of_mem f hg))]
      rfl

/-! ## Toolkit: profile headers and profile separation -/

theorem header_debug : header debug_dir = debug_build := by
  rw [header, if_pos rfl]

theorem header_release : header release_dir = release_build := by
  rw [header, if_neg (by decide), if_pos rfl]

set_option maxRecDepth 40000 in
theorem scan_debug_build_append (X : Str) :
    scan_objects (debug_build ++ X) = scan_objects X := by
  have h : debug_build ++ X
      = (".PHONY: debug debug_deps\n\ndebug: CFLAGS += -ggdb -O0 -DDEBUG\ndebug: debug_deps ./debug/lemon\n\t@echo \"\\nBuild finished successfully.\"\n\t@echo \"Lemon was compiled in debug mode.\"\n\t@echo \"Issue \x27make release\x27 to turn on optimisations.\"\n\ndebug_deps:\n\t@mkdir -p ./debug/\n").toList ++ '\n' :: X := rfl
  rw [scan_objects, h, words_append_space pySpace_newline, List.filterMap_append]
  have h2 : (words ((".PHONY: debug debug_deps\n\ndebug: CFLAGS += -ggdb -O0 -DDEBUG\ndebug: debug_deps ./debug/lemon\n\t@echo \"\\nBuild finished successfully.\"\n\t@echo \"Lemon was compiled in debug mode.\"\n\t@echo \"Issue \x27make release\x27 to turn on optimisations.\"\n\ndebug_deps:\n\t@mkdir -p ./debug/\n").toList)).filterMap toObject = [] := by decide
  rw [h2, List.nil_append]
  rfl

set_option maxRecDepth 40000 in
theorem scan_release_build_append (X : Str) :
    scan_objects (release_build ++ X) = scan_objects X := by
  have h : release_build ++ X
      = (".PHONY: release release_deps\n\nrelease: CFLAGS += -O3 -march=native\nrelease: release_deps ./release/lemon\n\t@echo \"\\nBuild finished successfully.\"\n\t@echo \"Lemon was compiled in release mode.\"\n\nrelease_deps:\n\t@mkdir -p ./release/\n").toList ++ '\n' :: X := rfl
  rw [scan_objects, h, words_append_space pySpace_newline, List.filterMap_append]
  have h2 : (words ((".PHONY: release release_deps\n\nrelease: CFLAGS += -O3 -march=native\nrelease: release_deps ./release/lemon\n\t@echo \"\\nBuild finished successfully.\"\n\t@echo \"Lemon was compiled in release mode.\"\n\nrelease_deps:\n\t@mkdir -p ./release/\n").toList)).filterMap toObject = [] := by decide
  rw [h2, List.nil_append]
  rfl

theorem scan_header_append (directory : Str)
    (hprof : directory = debug_dir ∨ directory = release_dir) (X : Str) :
    scan_objects (header directory ++ X) = scan_objects X := by
  rcases hprof with h | h <;> subst h
  · rw [header_debug]; exact scan_debug_build_append X
  · rw [header_release]; exact scan_release_build_append X

theorem scan_flatten_rules (directory : Str) (t r : Str → Str)
    (hdir : ∀ x ∈ directory, pySpace x = false) (fs : List Str)
    (hgood : ∀ f ∈ fs, (f ≠ [] ∧ ∀ x ∈ f, pySpace x = false) ∧ ∀ x ∈ t f, pySpace x = false)
    (hgood2 : ∀ f ∈ fs, (t f).drop ((t f).length - 2) = ['.', 'o'] ∧ ':' ∉ f ∧ ':' ∉ r f) :
    scan_objects ((fs.map (ruleText directory t r)).flatten)
      = fs.map (fun f => directory ++ t f) := by
  have hwj := words_join_rules directory t r hdir fs hgood []
  rw [List.append_nil] at hwj
  rw [scan_objects, hwj]
  have hwnil : words ([] : Str) = [] := rfl
  rw [hwnil, List.append_nil]
  exact filterMap_join_ruleTokens directory t r fs hgood2

theorem debug_ne_release_prefix (x y : Str) : debug_dir ++ x ≠ release_dir ++ y := by
  intro h
  have h2 : '.' :: '/' :: 'd' :: ("ebug/".toList ++ x)
      = '.' :: '/' :: 'r' :: ("elease/".toList ++ y) := h
  injection h2 with e1 h3
  injection h3 with e2 h4
  injection h4 with e3 h5
  exact absurd e3 (by decide)

theorem append_left_injective (d : Str) : Function.Injective (fun s : Str => d ++ s) := by
  intro a b h
  simpa using h

theorem targetOf_ruleText (directory : Str) (t r : Str → Str) (f : Str)
    (hdir : ∀ x ∈ directory, pySpace x = false ∧ x ≠ ':')
    (hts : ∀ x ∈ t f, pySpace x = false ∧ x ≠ ':') :
    targetOf (ruleText directory t r f) = directory ++ t f := by
  have e : ruleText directory t r f
      = (directory ++ t f) ++ ':' :: (' ' :: (f ++ ' ' :: (r f ++ object_recipe))) := by
    simp [ruleText, List.append_assoc]
  have hall : ∀ x ∈ directory ++ t f, (x != ':') = true := by
    intro x hx
    rcases List.mem_append.mp hx with h | h
    · exact bne_iff_ne.mpr (hdir x h).2
    · exact bne_iff_ne.mpr (hts x h).2
  have hcolon : ((':' : Char) != ':') = false := by decide
  rw [targetOf, e, takeWhile_append_all hall,
    @takeWhile_cons_neg (fun x => x != ':') ':' hcolon _, List.append_nil]

/-! ## Claim C4: link completeness -/

/-- C4: for every profile, given dependency-scanner outputs of the expected
one-rule form (`t f` is the target ending in `.o` before the first colon,
`r f` the prerequisite text after it), the object paths scanned into the
link rule's prerequisite list are exactly the targets of the generated
object rules, in order, with no duplicates (when the scanner targets are
distinct) and no paths of the other profile. -/
theorem c4_link_completeness (dep : Str → Option Str) (fs libs : List Str)
    (t r : Str → Str) (directory : Str)
    (hprof : directory = debug_dir ∨ directory = release_dir)
    (hdep : ∀ f ∈ fs, dep f = some (t f ++ ':' :: r f))
    (ht : ∀ f ∈ fs, (t f).drop ((t f).length - 2) = ['.', 'o'])
    (hts : ∀ f ∈ fs, ∀ x ∈ t f, pySpace x = false ∧ x ≠ ':')
    (hr : ∀ f ∈ fs, ':' ∉ r f)
    (hf : ∀ f ∈ fs, f ≠ [] ∧ ∀ x ∈ f, pySpace x = false ∧ x ≠ ':') :
    ∃ b, object_loop dep directory fs (header directory) = Except.ok b ∧
      build dep fs libs directory = Except.ok (b ++ create_exe_rule libs directory b) ∧
      scan_objects b = fs.map (fun f => directory ++ t f) ∧
      get_linker_prerequisites b = joinSpace (fs.map (fun f => directory ++ t f)) ∧
      ((fs.map t).Nodup → (scan_objects b).Nodup) ∧
      (∀ f ∈ fs, ∃ rule, create_object_rule dep directory f = Except.ok rule ∧
          targetOf rule = directory ++ t f) ∧
      (∀ q ∈ scan_objects b, ∀ y : Str,
          (directory = debug_dir → q ≠ release_dir ++ y) ∧
          (directory = release_dir → q ≠ debug_dir ++ y)) := by
  have hdir : ∀ x ∈ directory, pySpace x = false ∧ x ≠ ':' := by
    rcases hprof with h | h <;> subst h <;> decide
  have htc : ∀ f ∈ fs, ':' ∉ t f := fun f hf2 hc => ((hts f hf2) ':' hc).2 rfl
  have hrule : ∀ f ∈ fs, create_object_rule dep directory f
      = Except.ok (ruleText directory t r f) :=
    fun f hf2 => create_object_rule_eq dep directory t r f (hdep f hf2) (htc f hf2)
  have hloop := object_loop_ok dep directory (ruleText directory t r) fs (header directory) hrule
  refine ⟨header directory ++ (fs.map (ruleText directory t r)).flatten, hloop, ?_, ?_, ?_, ?_, ?_, ?_⟩
  case _ =>
    simp only [build, hloop]
  all_goals
    have hscanb : scan_objects (header directory ++ (fs.map (ruleText directory t r)).flatten)
        = fs.map (fun f => directory ++ t f) := by
      rw [scan_header_append directory hprof]
      exact scan_flatten_rules directory t r (fun x hx => (hdir x hx).1) fs
        (fun f hf2 => ⟨⟨(hf f hf2).1, fun x hx => ((hf f hf2).2 x hx).1⟩,
          fun x hx => (hts f hf2 x hx).1⟩)
        (fun f hf2 => ⟨ht f hf2,
          fun hc => ((hf f hf2).2 ':' hc).2 rfl, hr f hf2⟩)
  case _ => exact hscanb
  case _ =>
    simp only [get_linker_prerequisites]
    rw [hscanb]
  case _ =>
    intro hnd
    rw [hscanb]
    have e : fs.map (fun f => directory ++ t f)
        = (fs.map t).map (fun s => directory ++ s) := by
      rw [List.map_map]; rfl
    rw [e]
    exact hnd.map (append_left_injective directory)
  case _ =>
    intro f hf2
    exact ⟨ruleText directory t r f, hrule f hf2,
      targetOf_ruleText directory t r f hdir (hts f hf2)⟩
  case _ =>
    intro q hq y
    rw [hscanb] at hq
    rcases List.mem_map.mp hq with ⟨f, _, hfq⟩
    constructor
    · intro hd heq
      rw [← hfq, hd] at heq
      exact debug_ne_release_prefix (t f) y heq
    · intro hd heq
      rw [← hfq, hd] at heq
      exact debug_ne_release_prefix y (t f) heq.symm

/-! ## Claims C8, C9: the assertion and frame behaviour of `insert_source` -/

/-- C8: `insert_source` fails by assertion exactly when the scanner output
given to it contains no colon; with a colon present it never raises. -/
theorem c8_insert_source_assertion (rule file : Str) :
    insert_source rule file = none ↔ ':' ∉ rule := by
  rw [insert_source, Option.map_eq_none']
  exact find_colon_eq_none

/-- C9: on an input containing a colon, `insert_source` changes nothing
except splicing one space, the file path and one space immediately after
the first colon: the text up to and including the first colon and all the
text after it survive verbatim. -/
theorem c9_insert_source_frame (s file : Str) (hc : ':' ∈ s) :
    ∃ a b, s = a ++ ':' :: b ∧ ':' ∉ a ∧
      insert_source s file = some ((a ++ [':']) ++ ' ' :: (file ++ ' ' :: b)) := by
  rcases exists_first_colon hc with ⟨a, b, hab, ha⟩
  subst hab
  exact ⟨a, b, rfl, ha, insert_source_spec ha b file⟩

theorem c9_insert_source_frame_witness :
    ':' ∈ ("a.o: a.c".toList) ∧
    ∃ a b, "a.o: a.c".toList = a ++ ':' :: b ∧ ':' ∉ a ∧
      insert_source ("a.o: a.c".toList) ("./a.c".toList)
        = some ((a ++ [':']) ++ ' ' :: ("./a.c".toList ++ ' ' :: b)) :=
  ⟨by decide, c9_insert_source_frame ("a.o: a.c".toList) ("./a.c".toList) (by decide)⟩

/-! ## Claims C3, C10: the prerequisite list of a generated object rule -/

theorem prereqTokens_rule (directory a file b : Str)
    (ha : ':' ∉ a) (hdir : ':' ∉ directory)
    (hfne : file ≠ []) (hfs : ∀ x ∈ file, pySpace x = false) :
    prereqTokens (directory ++ ((a ++ [':']) ++ ' ' :: (file ++ ' ' :: b)) ++ object_recipe)
      = file :: words (List.takeWhile (fun c => c != '\n') (b ++ object_recipe)) := by
  have hnc : ∀ x ∈ directory ++ a, (x != ':') = true := by
    intro x hx
    rcases List.mem_append.mp hx with h | h
    · exact bne_iff_ne.mpr (fun he => hdir (he ▸ h))
    · exact bne_iff_ne.mpr (fun he => ha (he ▸ h))
  have e : directory ++ ((a ++ [':']) ++ ' ' :: (file ++ ' ' :: b)) ++ object_recipe
      = (directory ++ a) ++ ':' :: (' ' :: (file ++ ' ' :: (b ++ object_recipe))) := by
    simp [List.append_assoc]
  rw [prereqTokens, afterFirstColon, e, dropWhile_append_all hnc,
    @dropWhile_cons_neg (fun x => x != ':') ':' (by decide) _,
    List.drop_succ_cons, List.drop_zero]
  have hu : ∀ x ∈ (' ' :: (file ++ [' '])), (x != '\n') = true := by
    intro x hx
    rcases List.mem_cons.mp hx with h | h
    · subst h; decide
    · rcases List.mem_append.mp h with h2 | h2
      · refine bne_iff_ne.mpr (fun he => ?_)
        rw [he] at h2
        exact absurd (hfs '\n' h2) (by decide)
      · have hx2 : x = ' ' := List.mem_singleton.mp h2
        subst hx2; decide
  have e2 : ' ' :: (file ++ ' ' :: (b ++ object_recipe))
      = (' ' :: (file ++ [' '])) ++ (b ++ object_recipe) := by
    simp [List.append_assoc]
  rw [firstLine, e2, takeWhile_append_all hu]
  have e3 : (' ' :: (file ++ [' ']))
        ++ List.takeWhile (fun c => c != '\n') (b ++ object_recipe)
      = ' ' :: (file ++ ' ' :: List.takeWhile (fun c => c != '\n') (b ++ object_recipe)) := by
    simp [List.append_assoc]
  rw [e3, words_cons_space (by decide), words_word_append hfs hfne pySpace_space]

/-- C3: whatever the dependency scanner returned, provided it contains a
colon, the generated object rule's prerequisite list contains the source
file's own path. -/
theorem c3_prerequisite_inclusion (dep : Str → Option Str) (directory file out : Str)
    (hdep : dep file = some out) (hcolon : ':' ∈ out)
    (hfne : file ≠ []) (hfs : ∀ x ∈ file, pySpace x = false)
    (hdir : ':' ∉ directory) :
    ∃ rule, create_object_rule dep directory file = Except.ok rule ∧
      file ∈ prereqTokens rule := by
  rcases exists_first_colon hcolon with ⟨a, b, hab, ha⟩
  subst hab
  have hrule : create_object_rule dep directory file
      = Except.ok (directory ++ ((a ++ [':']) ++ ' ' :: (file ++ ' ' :: b)) ++ object_recipe) := by
    simp only [create_object_rule, hdep, insert_source_spec ha]
  refine ⟨_, hrule, ?_⟩
  rw [prereqTokens_rule directory a file b ha hdir hfne hfs]
  exact List.mem_cons_self _ _

theorem c3_prerequisite_inclusion_witness :
    ':' ∈ ("a.o: a.c a.h\n".toList) ∧
    ∃ rule, create_object_rule (fun _ => some ("a.o: a.c a.h\n".toList)) debug_dir
        ("./a.c".toList) = Except.ok rule ∧
      ("./a.c".toList) ∈ prereqTokens rule :=
  ⟨by decide, c3_prerequisite_inclusion (fun _ => some ("a.o: a.c a.h\n".toList)) debug_dir
    ("./a.c".toList) ("a.o: a.c a.h\n".toList) rfl (by decide) (by decide) (by decide) (by decide)⟩

/-- C10: the insertion does not deduplicate: when the scanner output already
lists the file among the prerequisites, the rule lists the path twice, and
the force-inserted copy is the first prerequisite after the colon. -/
theorem c10_no_dedup (dep : Str → Option Str) (directory file a b : Str)
    (hdep : dep file = some (a ++ ':' :: b)) (ha : ':' ∉ a) (hb : '\n' ∉ b)
    (hfne : file ≠ []) (hfs : ∀ x ∈ file, pySpace x = false)
    (hdir : ':' ∉ directory) (hmem : file ∈ words b) :
    ∃ rule, create_object_rule dep directory file = Except.ok rule ∧
      (prereqTokens rule).head? = some file ∧
      2 ≤ (prereqTokens rule).count file := by
  have hrule : create_object_rule dep directory file
      = Except.ok (directory ++ ((a ++ [':']) ++ ' ' :: (file ++ ' ' :: b)) ++ object_recipe) := by
    simp only [create_object_rule, hdep, insert_source_spec ha]
  refine ⟨_, hrule, ?_⟩
  have hbn : ∀ x ∈ b, (x != '\n') = true :=
    fun x hx => bne_iff_ne.mpr (fun he => hb (he ▸ hx))
  have htw : List.takeWhile (fun c => c != '\n') (b ++ object_recipe) = b := by
    rw [takeWhile_append_all hbn]
    have : List.takeWhile (fun c => c != '\n') object_recipe = [] := by decide
    rw [this, List.append_nil]
  rw [prereqTokens_rule directory a file b ha hdir hfne hfs, htw]
  constructor
  · rfl
  · rw [List.count_cons_self]
    have : 0 < (words b).count file := List.count_pos_iff_mem.mpr hmem
    omega

theorem c10_no_dedup_witness :
    ("./a.c".toList) ∈ words (" ./a.c a.h".toList) ∧
    ∃ rule, create_object_rule (fun _ => some ("a.o: ./a.c a.h".toList)) debug_dir
        ("./a.c".toList) = Except.ok rule ∧
      (prereqTokens rule).head? = some ("./a.c".toList) ∧
      2 ≤ (prereqTokens rule).count ("./a.c".toList) :=
  ⟨by decide, c10_no_dedup (fun _ => some ("a.o: ./a.c a.h".toList)) debug_dir
    ("./a.c".toList) ("a.o".toList) (" ./a.c a.h".toList) rfl (by decide) (by decide)
    (by decide) (by decide) (by decide) (by decide)⟩

/-! ## Claim C5: fatal propagation of a failed dependency scan -/

theorem object_loop_error (dep : Str → Option Str) (directory f : Str) (hdep : dep f = none) :
    ∀ (fs : List Str) (acc : Str), f ∈ fs →
      ∃ e, object_loop dep directory fs acc = Except.error e := by
  intro fs
  induction fs with
  | nil => intro acc h; exact absurd h (List.not_mem_nil f)
  | cons g gs ih =>
      intro acc h
      rcases List.mem_cons.mp h with h2 | h2
      · subst h2
        refine ⟨BuildError.scanFailure f, ?_⟩
        simp only [object_loop, create_object_rule, hdep]
      · cases hcr : create_object_rule dep directory g with
        | error e => exact ⟨e, by simp only [object_loop, hcr]⟩
        | ok rule =>
            rcases ih (acc ++ rule) h2 with ⟨e, he⟩
            exact ⟨e, by simp only [object_loop, hcr, he]⟩

/-- C5: if the dependency scan of any one configured file signals failure,
the whole generation run terminates as a failure and the program emits no
script text at all. -/
theorem c5_fatal_propagation (dep : Str → Option Str) (fs libs : List Str) (f : Str)
    (hmem : f ∈ fs) (hdep : dep f = none) :
    emitted_script dep fs libs = none ∧
      ∃ e, create_makefile dep fs libs = Except.error e := by
  rcases object_loop_error dep debug_dir f hdep fs (header debug_dir) hmem with ⟨e, he⟩
  have hbuild : build dep fs libs debug_dir = Except.error e := by
    simp only [build, he]
  have hmk : create_makefile dep fs libs = Except.error e := by
    simp only [create_makefile, hbuild]
  exact ⟨by simp only [emitted_script, hmk], e, hmk⟩

theorem c5_fatal_propagation_witness :
    ("./b.c".toList) ∈ [("./a.c".toList), ("./b.c".toList)] ∧
    (emitted_script (fun s => if s = "./a.c".toList then some ("a.o: ./a.c\n".toList) else none)
        [("./a.c".toList), ("./b.c".toList)] [("pthread".toList)] = none ∧
      ∃ e, create_makefile
          (fun s => if s = "./a.c".toList then some ("a.o: ./a.c\n".toList) else none)
          [("./a.c".toList), ("./b.c".toList)] [("pthread".toList)] = Except.error e) :=
  ⟨by decide, c5_fatal_propagation
    (fun s => if s = "./a.c".toList then some ("a.o: ./a.c\n".toList) else none)
    [("./a.c".toList), ("./b.c".toList)] [("pthread".toList)] ("./b.c".toList)
    (by decide) (by decide)⟩

/-! ## Claim C6: determinism of the generation run -/

theorem object_loop_congr (dep₁ dep₂ : Str → Option Str) (directory : Str) :
    ∀ (fs : List Str) (acc : Str), (∀ f ∈ fs, dep₁ f = dep₂ f) →
      object_loop dep₁ directory fs acc = object_loop dep₂ directory fs acc := by
  intro fs
  induction fs with
  | nil => intro acc h; rfl
  | cons g gs ih =>
      intro acc h
      have hg : create_object_rule dep₁ directory g = create_object_rule dep₂ directory g := by
        simp only [create_object_rule, h g (List.mem_cons_self g gs)]
      simp only [object_loop, hg]
      cases hcr : create_object_rule dep₂ directory g with
      | error e => rfl
      | ok rule => exact ih (acc ++ rule) (fun x hx => h x (List.mem_cons_of_mem g hx))

/-- C6: for a fixed configuration and a dependency scanner that behaves the
same on every configured file, two generation runs produce identical script
text. -/
theorem c6_determinism (dep₁ dep₂ : Str → Option Str) (fs libs : List Str)
    (h : ∀ f ∈ fs, dep₁ f = dep₂ f) :
    create_makefile dep₁ fs libs = create_makefile dep₂ fs libs := by
  have hb : ∀ directory, build dep₁ fs libs directory = build dep₂ fs libs directory := by
    intro directory
    simp only [build, object_loop_congr dep₁ dep₂ directory fs (header directory) h]
  simp only [create_makefile, hb debug_dir, hb release_dir]

theorem c6_determinism_witness :
    (∀ f ∈ [("./a.c".toList)],
        (fun _ : Str => some ("a.o: ./a.c\n".toList)) f
          = (fun s : Str => if s = "./a.c".toList then some ("a.o: ./a.c\n".toList) else none) f) ∧
    create_makefile (fun _ => some ("a.o: ./a.c\n".toList)) [("./a.c".toList)]
        [("pthread".toList)]
      = create_makefile (fun s => if s = "./a.c".toList then some ("a.o: ./a.c\n".toList) else none)
        [("./a.c".toList)] [("pthread".toList)] :=
  ⟨by decide, c6_determinism (fun _ => some ("a.o: ./a.c\n".toList))
    (fun s => if s = "./a.c".toList then some ("a.o: ./a.c\n".toList) else none)
    [("./a.c".toList)] [("pthread".toList)] (by decide)⟩

/-! ## Claim C7: library flag resolution and ordering -/

theorem lib_flags_map (libs : List Str) :
    lib_flags libs = libs.map (fun l => '-' :: 'l' :: l) := by
  induction libs with
  | nil => rfl
  | cons l ls ih => simp only [lib_flags, List.map_cons, ih]

/-- C7: library resolution maps each name, in order and keeping duplicates
verbatim, to `-l<name>`, and the link rule's recipe places all the flags
after the `$^` reference that the build tool expands to all object
prerequisites. -/
theorem c7_library_flags (libs : List Str) (directory script : Str) :
    lib_flags libs = libs.map (fun l => '-' :: 'l' :: l) ∧
    create_exe_rule libs directory script
      = (directory ++ executable_name ++ (": ").toList ++ get_linker_prerequisites script)
        ++ (("\n\t$(CC) -o $@ $^ ").toList
          ++ joinSpace (libs.map (fun l => '-' :: 'l' :: l)) ++ ("\n\n").toList) := by
  refine ⟨lib_flags_map libs, ?_⟩
  rw [create_exe_rule, exe_recipe, get_libraries, lib_flags_map libs]

/-! ## Claim C1: the unknown-directory branch of `build` -/

/-- C1 (code bug): for a directory that is neither profile directory the
source constructs `ValueError(...)` on line 141 but never raises it, so
`build` succeeds silently and still produces object and link rules for the
unknown directory instead of aborting the run. -/
theorem c1_unknown_directory_not_fatal :
    ∃ s, build (fun _ => some ("a.o: ./a.c\n".toList)) [("./a.c".toList)]
        [("pthread".toList)] ("./unknown/".toList) = Except.ok s ∧ s ≠ [] := by
  refine ⟨_, rfl, ?_⟩
  decide

/-! ## Claim C2: behaviour when the scan finds zero object paths -/

/-- The oracle of the C2 counterexample: the scanner's target does not end
in `.o`, so the link-prerequisite scan finds nothing. -/
def c2_dep : Str → Option Str := fun _ => some ("x.obj: ./a.c\n".toList)

/-- The debug block accumulated by `build` under `c2_dep`. -/
def c2_block : Str :=
  debug_build ++ ("./debug/x.obj: ./a.c  ./a.c\n\n\t$(CC) $(CFLAGS) -c -o $@ $<\n\n").toList

/-- C2 is false as stated: with a non-empty file list whose accumulated
object-rule block contains no `.o:` token, the generation run does not
fail — `build` returns a script. -/
theorem c2_counterexample :
    object_loop c2_dep debug_dir [("./a.c".toList)] (header debug_dir) = Except.ok c2_block ∧
    scan_objects c2_block = [] ∧
    ∃ s, build c2_dep [("./a.c".toList)] [("pthread".toList)] debug_dir = Except.ok s := by
  refine ⟨rfl, by decide, ⟨_, rfl⟩⟩

/-- C2 (amended): when the link-prerequisite scan of a profile's
accumulated block yields zero object paths, no error is raised: the link
rule is emitted with an empty prerequisite list. -/
theorem c2_empty_scan_emits_empty_link_rule (dep : Str → Option Str)
    (fs libs : List Str) (directory b : Str)
    (hloop : object_loop dep directory fs (header directory) = Except.ok b)
    (hscan : scan_objects b = []) :
    get_linker_prerequisites b = [] ∧
    build dep fs libs directory
      = Except.ok (b ++ ((directory ++ executable_name ++ (": ").toList)
          ++ exe_recipe libs)) := by
  have hlp : get_linker_prerequisites b = [] := by
    rw [get_linker_prerequisites, hscan]; rfl
  refine ⟨hlp, ?_⟩
  simp only [build, hloop, create_exe_rule, hlp, List.append_nil]

theorem c2_empty_scan_witness :
    object_loop c2_dep debug_dir [("./a.c".toList)] (header debug_dir) = Except.ok c2_block ∧
    scan_objects c2_block = [] ∧
    (get_linker_prerequisites c2_block = [] ∧
      build c2_dep [("./a.c".toList)] [("pthread".toList)] debug_dir
        = Except.ok (c2_block ++ ((debug_dir ++ executable_name ++ (": ").toList)
            ++ exe_recipe [("pthread".toList)]))) :=
  ⟨rfl, by decide, c2_empty_scan_emits_empty_link_rule c2_dep [("./a.c".toList)]
    [("pthread".toList)] debug_dir c2_block rfl (by decide)⟩

/-! ## Witness for claim C4 -/

/-- Oracle of the C4 witness. -/
def c4_dep : Str → Option Str := fun f =>
  if f = "./a.c".toList then some ("a.o: ./a.c ./a.h\n".toList)
  else some ("b.o: ./b.c\n".toList)

/-- Scanner targets of the C4 witness. -/
def c4_t : Str → Str := fun f => if f = "./a.c".toList then "a.o".toList else "b.o".toList

/-- Scanner prerequisite texts of the C4 witness. -/
def c4_r : Str → Str := fun f =>
  if f = "./a.c".toList then (" ./a.c ./a.h\n").toList else (" ./b.c\n").toList

theorem c4_link_completeness_witness :
    (∀ f ∈ [("./a.c".toList), ("./b.c".toList)],
        c4_dep f = some (c4_t f ++ ':' :: c4_r f)) ∧
    (∃ b, object_loop c4_dep debug_dir [("./a.c".toList), ("./b.c".toList)]
          (header debug_dir) = Except.ok b ∧
      build c4_dep [("./a.c".toList), ("./b.c".toList)] [("pthread".toList)] debug_dir
        = Except.ok (b ++ create_exe_rule [("pthread".toList)] debug_dir b) ∧
      scan_objects b
        = [("./a.c".toList), ("./b.c".toList)].map (fun f => debug_dir ++ c4_t f) ∧
      get_linker_prerequisites b
        = joinSpace ([("./a.c".toList), ("./b.c".toList)].map (fun f => debug_dir ++ c4_t f)) ∧
      (([("./a.c".toList), ("./b.c".toList)].map c4_t).Nodup → (scan_objects b).Nodup) ∧
      (∀ f ∈ [("./a.c".toList), ("./b.c".toList)],
          ∃ rule, create_object_rule c4_dep debug_dir f = Except.ok rule ∧
            targetOf rule = debug_dir ++ c4_t f) ∧
      (∀ q ∈ scan_objects b, ∀ y : Str,
          (debug_dir = debug_dir → q ≠ release_dir ++ y) ∧
          (debug_dir = release_dir → q ≠ debug_dir ++ y))) :=
  ⟨by decide, c4_link_completeness c4_dep [("./a.c".toList), ("./b.c".toList)]
    [("pthread".toList)] c4_t c4_r debug_dir (Or.inl rfl)
    (by decide) (by decide) (by decide) (by decide) (by decide)⟩

end Lemon
